import Mathlib

/-!
Verification development for the gmaik terminal mail front-end
(`_find-mails.py`, `_view-mails.py`, `gm-find.py`).

The Python sources are shallowly embedded below.  Pure helpers become Lean
functions on `String` / `List Char`; the stateful curses loops become explicit
step functions on state types.  Behaviour of external collaborators that the
scripts call (the Python standard library's `textwrap.wrap`,
`html.parser.HTMLParser` tokenizer, `str` methods, and the `notmuch` index
tool) is modelled by executable Lean functions whose doc comments say exactly
what they model.
-/

/-- Models Python's notion of (ASCII) whitespace used by `str.strip`,
`str.split` and `textwrap`: space, tab, newline, vertical tab, form feed,
carriage return. -/
def isPyWs (c : Char) : Bool :=
  c == ' ' || c == '\t' || c == '\n' || c == '\x0b' || c == '\x0c' || c == '\r'

/-- Models Python `str.strip()` on a character list: drop leading and trailing
whitespace. -/
def pyStripChars (l : List Char) : List Char :=
  ((l.dropWhile isPyWs).reverse.dropWhile isPyWs).reverse

/-- Models Python `str.strip()`. -/
def pyStrip (s : String) : String :=
  String.mk (pyStripChars s.toList)

/-- Models Python `str.lower()` (ASCII range, which is all the sources use). -/
def pyLower (s : String) : String :=
  String.mk (s.toList.map Char.toLower)

/-- Models Python `sep.join(list)`. -/
def joinWith (sep : String) : List String → String
  | [] => ""
  | [s] => s
  | s :: ss => s ++ sep ++ joinWith sep ss

/-- Models Python `"".join(list)`. -/
def strJoin (l : List String) : String :=
  joinWith "" l

/-- Models Python `str.splitlines()` (for the line breaks `\n`, `\r`, `\r\n`
that occur in mail text): split into lines, no trailing empty line for a
trailing line break. -/
def pySplitlinesChars : List Char → List Char → List String
  | acc, [] => if acc.isEmpty then [] else [String.mk acc.reverse]
  | acc, '\r' :: '\n' :: cs => String.mk acc.reverse :: pySplitlinesChars [] cs
  | acc, '\n' :: cs => String.mk acc.reverse :: pySplitlinesChars [] cs
  | acc, '\r' :: cs => String.mk acc.reverse :: pySplitlinesChars [] cs
  | acc, c :: cs => pySplitlinesChars (c :: acc) cs

/-- Models Python `str.splitlines()`. -/
def pySplitlines (s : String) : List String :=
  pySplitlinesChars [] s.toList

/-- Models Python `str.expandtabs(8)` (part of `textwrap`'s whitespace
munging): tabs expand to the next multiple-of-8 column, column resets at a
line break. -/
def expandTabs : Nat → List Char → List Char
  | _, [] => []
  | col, c :: cs =>
    if c = '\t' then
      List.replicate (8 - col % 8) ' ' ++ expandTabs (col + (8 - col % 8)) cs
    else if c = '\n' ∨ c = '\r' then
      c :: expandTabs 0 cs
    else
      c :: expandTabs (col + 1) cs

/-- Models `textwrap._munge_whitespace`: expand tabs, then turn every
whitespace character into a plain space. -/
def mungeWs (l : List Char) : List Char :=
  (expandTabs 0 l).map (fun c => if isPyWs c then ' ' else c)

/-- Helper for `splitChunks`: extend the current run (`isSp` says whether it
is a run of spaces, `acc` holds it reversed), starting a new run whenever the
character class changes. -/
def chunkRunAux (isSp : Bool) (acc : List Char) : List Char → List (List Char)
  | [] => [acc.reverse]
  | c :: cs =>
    if (c == ' ') == isSp then chunkRunAux isSp (c :: acc) cs
    else acc.reverse :: chunkRunAux (c == ' ') [c] cs

/-- Models `textwrap`'s chunk splitting: maximal runs of spaces and of
non-spaces become separate chunks.  (The stdlib's hyphen-aware splitting of
compound words is not modelled; it only moves break points at hyphens and is
exercised by none of the properties below.) -/
def splitChunks : List Char → List (List Char)
  | [] => []
  | c :: cs => chunkRunAux (c == ' ') [c] cs

/-- Models the inner chunk-gathering loop of `textwrap._wrap_chunks`: pop
chunks onto the current line while they fit in `width`.  Returns the gathered
chunks, the remaining chunks, and the resulting line length. -/
def fillLine (width : Nat) : Nat → List (List Char) → List (List Char) × List (List Char) × Nat
  | curLen, [] => ([], [], curLen)
  | curLen, c :: cs =>
    if curLen + c.length ≤ width then
      let r := fillLine width (curLen + c.length) cs
      (c :: r.1, r.2.1, r.2.2)
    else
      ([], c :: cs, curLen)

/-- Models `textwrap._handle_long_word` (with `break_long_words=True`): when
the next chunk is longer than the width, chop off what still fits on the
current line. -/
def longWordAdjust (width : Nat) (cur : List (List Char)) (curLen : Nat) :
    List (List Char) → List (List Char) × List (List Char) × Nat
  | [] => (cur, [], curLen)
  | c :: cs =>
    if width < c.length then
      let sl := if width < 1 then 1 else width - curLen
      (cur ++ [c.take sl], c.drop sl :: cs, curLen + (c.take sl).length)
    else
      (cur, c :: cs, curLen)

/-- Models the `drop_whitespace` step of `textwrap._wrap_chunks`: a trailing
all-whitespace chunk of the current line is removed. -/
def dropTrailingWsChunk (cur : List (List Char)) : List (List Char) :=
  match cur.getLast? with
  | some l => if l.all isPyWs then cur.dropLast else cur
  | none => cur

/-- One iteration of `textwrap._wrap_chunks`' outer loop on already
leading-stripped chunks: gather fitting chunks, handle a long word, drop a
trailing whitespace chunk.  Returns the current line's chunks and the
remaining chunks. -/
def wrapIter (width : Nat) (chunks : List (List Char)) :
    List (List Char) × List (List Char) :=
  let f := fillLine width 0 chunks
  let g := longWordAdjust width f.1 f.2.2 f.2.1
  (dropTrailingWsChunk g.1, g.2.1)

/-- Models the outer loop of `textwrap._wrap_chunks` (defaults:
`drop_whitespace=True`, `break_long_words=True`, no indents, no
`max_lines`).  `isFirst` tracks whether `lines` is still empty (the stdlib
drops a leading whitespace chunk only once a line has been emitted).  The
fuel argument strictly exceeds the number of loop iterations needed. -/
def wrapLoop (width : Nat) : Nat → Bool → List (List Char) → List (List Char)
  | 0, _, _ => []
  | _ + 1, _, [] => []
  | fuel + 1, isFirst, c0 :: cs0 =>
    let it := wrapIter width
      (if isFirst then c0 :: cs0
       else if c0.all isPyWs then cs0 else c0 :: cs0)
    if it.1.isEmpty then wrapLoop width fuel isFirst it.2
    else it.1.flatten :: wrapLoop width fuel false it.2

/-- Models Python `textwrap.wrap(text, width=width, break_long_words=True)`
as called by `reflow_text` in `_view-mails.py`. -/
def textwrapWrap (s : String) (width : Nat) : List String :=
  let chunks := splitChunks (mungeWs s.toList)
  (wrapLoop width ((chunks.map List.length).sum + chunks.length + 1) true chunks).map
    (fun l => String.mk l)

/-- The vertical-squeeze loop of `reflow_text` (`_view-mails.py` lines
166-180), carrying Python's `empty_count`: a blank line is kept only while
`empty_count ≤ 1`, a non-blank line resets the counter. -/
def vsqueeze : Nat → List String → List String
  | _, [] => []
  | ecnt, l :: ls =>
    if l = "" then
      if ecnt + 1 ≤ 1 then "" :: vsqueeze (ecnt + 1) ls
      else vsqueeze (ecnt + 1) ls
    else
      l :: vsqueeze 0 ls

/-- `reflow_text` from `_view-mails.py` (lines 145-182): split into raw lines,
strip each, wrap non-blank lines to `width` (blank lines become one `""`
marker), drop leading blank lines, squeeze blank runs to at most one. -/
def reflow_text (text : String) (width : Nat) : List String :=
  let lines := (pySplitlines text).flatMap (fun raw =>
    let clean := pyStrip raw
    if clean = "" then [""] else textwrapWrap clean width)
  vsqueeze 0 (lines.dropWhile (fun l => l == ""))

/-- `true` iff the list has no two adjacent `""` entries (the pager's
vertical-whitespace policy). -/
def noConsecBlank : List String → Bool
  | [] => true
  | [_] => true
  | a :: b :: t => !(a == "" && b == "") && noConsecBlank (b :: t)

/-- `true` iff the list is empty or starts with a non-blank line. -/
def headNotBlank : List String → Bool
  | [] => true
  | l :: _ => !(l == "")

/-! ## Markup Reducer (`LayoutHTMLParser` in `_view-mails.py`) -/

/-- The parser events delivered by Python's `html.parser.HTMLParser` to the
three handlers that `LayoutHTMLParser` overrides. -/
inductive HTMLEvent : Type where
  | startTag (t : String) : HTMLEvent
  | endTag (t : String) : HTMLEvent
  | data (s : String) : HTMLEvent
deriving DecidableEq

/-- `LayoutHTMLParser.block_tags`. -/
def blockTags : List String :=
  ["p", "div", "br", "tr", "li", "h1", "h2", "h3", "h4", "h5", "h6",
   "blockquote", "title", "table", "ul", "ol"]

/-- `LayoutHTMLParser.ignore_tags`. -/
def ignoreTags : List String :=
  ["style", "script", "head", "meta", "link"]

/-- The reducer's mutable fields: `current_tag` and `parts`. -/
structure RState where
  currentTag : Option String
  parts : List String
deriving DecidableEq

/-- `handle_data`'s first cleaning step: strip zero-width joiner/non-joiner
and BOM characters, turn non-breaking spaces into plain spaces. -/
def stripInvisible (s : String) : String :=
  String.mk (s.toList.filterMap (fun c =>
    if c = '\u200C' ∨ c = '\u200D' ∨ c = '\uFEFF' then none
    else if c = '\u00A0' then some ' ' else some c))

/-- Helper for `pyWords`: `acc` holds the current word reversed. -/
def pyWordsAux (acc : List Char) : List Char → List (List Char)
  | [] => if acc.isEmpty then [] else [acc.reverse]
  | c :: cs =>
    if isPyWs c then
      if acc.isEmpty then pyWordsAux [] cs
      else acc.reverse :: pyWordsAux [] cs
    else pyWordsAux (c :: acc) cs

/-- Models Python `str.split()` with no argument: whitespace-separated words,
empties discarded. -/
def pyWords (l : List Char) : List (List Char) :=
  pyWordsAux [] l

/-- `handle_data`'s second cleaning step, Python `" ".join(clean.split())`:
collapse interior whitespace runs to single spaces (and trim). -/
def collapseWs (s : String) : String :=
  joinWith " " ((pyWords s.toList).map (fun l => String.mk l))

/-- `true` iff `current_tag` is one of the ignored tags (Python
`self.current_tag in self.ignore_tags`; `None` is in no set). -/
def curIgnored : Option String → Bool
  | some t => ignoreTags.contains t
  | none => false

/-- One parser event applied to the reducer state: the bodies of
`handle_starttag`, `handle_endtag` and `handle_data` from
`LayoutHTMLParser`. -/
def handleEvent (st : RState) : HTMLEvent → RState
  | .startTag t =>
    { currentTag := some t
      parts := if blockTags.contains t then st.parts ++ ["\n"] else st.parts }
  | .endTag t =>
    { st with parts := if blockTags.contains t then st.parts ++ ["\n"] else st.parts }
  | .data d =>
    if curIgnored st.currentTag then st
    else
      let clean := collapseWs (stripInvisible d)
      if clean = "" then st else { st with parts := st.parts ++ [clean] }

/-- `true` at characters that end a tag name. -/
def tagNameEnd (c : Char) : Bool :=
  c == '>' || c == '/' || isPyWs c

/-- Models the tokenizer of Python's `html.parser.HTMLParser` (an external
library) for plain markup without character references, comments or
doctypes: `<name ...>` yields a start-tag event, `</name>` an end-tag event,
anything else a data event; tag names are lower-cased. -/
def tokenizeHTML : Nat → List Char → List HTMLEvent
  | 0, _ => []
  | _ + 1, [] => []
  | fuel + 1, '<' :: '/' :: cs =>
    .endTag (String.mk ((cs.takeWhile (fun c => !(c == '>'))).map Char.toLower))
      :: tokenizeHTML fuel ((cs.dropWhile (fun c => !(c == '>'))).drop 1)
  | fuel + 1, '<' :: cs =>
    .startTag (String.mk ((cs.takeWhile (fun c => !(tagNameEnd c))).map Char.toLower))
      :: tokenizeHTML fuel ((cs.dropWhile (fun c => !(c == '>'))).drop 1)
  | fuel + 1, c :: cs =>
    .data (String.mk (c :: cs.takeWhile (fun x => !(x == '<'))))
      :: tokenizeHTML fuel (cs.dropWhile (fun x => !(x == '<')))

/-- `clean_html_to_text` from `_view-mails.py` (lines 57-60): feed the markup
through the parser, fold the events over the reducer state, join the parts. -/
def clean_html_to_text (html_content : String) : String :=
  let events := tokenizeHTML (html_content.toList.length + 1) html_content.toList
  strJoin ((events.foldl handleEvent ⟨none, []⟩).parts)

/-! ## Message Extractor (`collect_body_and_attachments` in `_view-mails.py`) -/

/-- One attachment record, Python
`{"id": part_id, "filename": filename, "content_type": raw_ctype}`. -/
structure Att where
  pid : Option Nat
  filename : String
  content_type : String
deriving DecidableEq

mutual
/-- A MIME part as delivered by `notmuch show --format=json`: the fields that
`collect_body_and_attachments` reads.  `content` is a string (inline
payload), a list of child parts, or absent. -/
inductive MimePart : Type where
  | mk (ctype : String) (filename : Option String) (pid : Option Nat)
       (dispo : Option String) (content : MimeContent) : MimePart
/-- The `content` field of a part. -/
inductive MimeContent : Type where
  | cstr (s : String) : MimeContent
  | clist (cs : MimeList) : MimeContent
  | cnone : MimeContent
/-- A list of sibling parts. -/
inductive MimeList : Type where
  | nil : MimeList
  | cons (p : MimePart) (ps : MimeList) : MimeList
end

/-- `get_part_content` from `_view-mails.py` (lines 86-101): inline string
content is used directly; otherwise the part is fetched by id (`fetch` models
a successful `notmuch show --part` run; a failed fetch is modelled by `fetch`
returning `""`); a part with neither inline content nor id yields `""`. -/
def getPartContent (fetch : Nat → String) (pid : Option Nat) : MimeContent → String
  | .cstr s => s
  | _ =>
    match pid with
    | some i => fetch i
    | none => ""

mutual
/-- The recursive `walk` closure of `collect_body_and_attachments` (lines
108-130).  The source appends to three closure lists in visit order; here
each part returns its own contributions `(plain, html, attachments)` and the
lists are concatenated in the same depth-first order. -/
def walkP (fetch : Nat → String) : MimePart → List String × List String × List Att
  | .mk ctype fname pid dispo content =>
    let raw_ctype := pyLower ctype
    let media_type := pyStrip (String.mk (raw_ctype.toList.takeWhile (fun c => !(c == ';'))))
    let filename := fname.getD ""
    let attHere : List Att := if filename ≠ "" then [⟨pid, filename, raw_ctype⟩] else []
    if filename ≠ "" ∧ dispo = some "attachment" then ([], [], attHere)
    else
      let payload := getPartContent fetch pid content
      let plainHere := if media_type = "text/plain" then [payload] else []
      let htmlHere := if media_type ≠ "text/plain" ∧ media_type = "text/html" then [payload] else []
      let rest :=
        match content with
        | .clist cs => walkL fetch cs
        | _ => ([], [], [])
      (plainHere ++ rest.1, htmlHere ++ rest.2.1, attHere ++ rest.2.2)
/-- The top-level loop over sibling parts (lines 126-134). -/
def walkL (fetch : Nat → String) : MimeList → List String × List String × List Att
  | .nil => ([], [], [])
  | .cons p ps =>
    let a := walkP fetch p
    let b := walkL fetch ps
    (a.1 ++ b.1, a.2.1 ++ b.2.1, a.2.2 ++ b.2.2)
end

/-- `collect_body_and_attachments` (lines 103-143): walk all parts, then
prefer the HTML buffer, else the plain buffer, else the placeholder. -/
def collect_body_and_attachments (fetch : Nat → String) (parts : MimeList) :
    String × List Att :=
  let w := walkL fetch parts
  if ¬ w.2.1.isEmpty then (clean_html_to_text (joinWith "\n" w.2.1), w.2.2)
  else if ¬ w.1.isEmpty then (joinWith "\n" w.1, w.2.2)
  else ("[No readable text content found]", w.2.2)

/-! ## Spec-side attachment manifest

An independent rendering of the spec's attachment rule (spec §4.3), used to
check the walk above against it: every part the content-walk visits whose
`filename` is non-empty is recorded exactly once, in document order, as
`{partId, filename, contentType}`; a part with a non-empty filename whose
disposition is exactly "attachment" ends the walk of its subtree. -/

mutual
/-- Spec-side attachment manifest of one part (see section comment). -/
def attsSpecP : MimePart → List Att
  | .mk ctype fname pid dispo content =>
    let filename := fname.getD ""
    let here : List Att := if filename ≠ "" then [⟨pid, filename, pyLower ctype⟩] else []
    if filename ≠ "" ∧ dispo = some "attachment" then here
    else
      here ++
        (match content with
         | .clist cs => attsSpecL cs
         | _ => [])
/-- Spec-side attachment manifest of a part list. -/
def attsSpecL : MimeList → List Att
  | .nil => []
  | .cons p ps => attsSpecP p ++ attsSpecL ps
end

/-! ## Result List Controller (`main` in `_find-mails.py`) -/

/-- The six pure navigation keys of the result list (lines 234-248). -/
inductive ListCmd : Type where
  | moveDown | moveUp | pageDown | pageUp | jumpStart | jumpEnd
deriving DecidableEq

/-- The key-handling branches of the result-list loop (`_find-mails.py`
lines 234-248).  State is `(selected_idx, scroll_offset)`; `total` is
`len(results)` and `h` is `list_height = max_y - 2`.  Integers are Python
ints, so the state uses `Int`. -/
def listTrans (total h : Int) (s : Int × Int) : ListCmd → Int × Int
  | .moveDown => (if s.1 < total - 1 then s.1 + 1 else s.1, s.2)
  | .moveUp => (if s.1 > 0 then s.1 - 1 else s.1, s.2)
  | .pageDown =>
    (min (total - 1) (s.1 + h),
     if min (total - h) (s.2 + h) < 0 then 0 else min (total - h) (s.2 + h))
  | .pageUp => (max 0 (s.1 - h), max 0 (s.2 - h))
  | .jumpStart => (0, s.2)
  | .jumpEnd => (total - 1, s.2)

/-- The scroll-adjustment step run after every key (`_find-mails.py` lines
257-263): clamp the selection into range, then move `scroll_offset` so the
selection is visible. -/
def scrollAdjust (total h : Int) (s : Int × Int) : Int × Int :=
  if total > 0 then
    let sel0 := if s.1 ≥ total then total - 1 else s.1
    let sel := if sel0 < 0 then 0 else sel0
    let sc :=
      if sel < s.2 then sel
      else if sel ≥ s.2 + h then sel - h + 1
      else s.2
    (sel, sc)
  else s

/-- One full navigation step: key branch followed by scroll adjustment. -/
def listStep (total h : Int) (s : Int × Int) (c : ListCmd) : Int × Int :=
  scrollAdjust total h (listTrans total h s c)

/-- The invariant claimed for `ListViewState`: selection in range and visible
within the page. -/
def ListInv (total h : Int) (s : Int × Int) : Prop :=
  0 ≤ s.1 ∧ s.1 < total ∧ s.2 ≤ s.1 ∧ s.1 ≤ s.2 + h - 1

instance (total h : Int) (s : Int × Int) : Decidable (ListInv total h s) := by
  unfold ListInv; infer_instance

/-! ## Pager Controller (`render_message` in `_view-mails.py`) -/

/-- The six scroll keys of the pager (lines 275-286). -/
inductive PagerCmd : Type where
  | lineUp | lineDown | pageUp | pageDown | jumpStart | jumpEnd
deriving DecidableEq

/-- The pager's key branches (`_view-mails.py` lines 275-286): `total` is
`total_lines`, `page` is `page_size = max_y - 2`, state is `top`. -/
def pagerStep (total page top : Int) : PagerCmd → Int
  | .lineUp => max 0 (top - 1)
  | .lineDown => min (max 0 (total - page)) (top + 1)
  | .pageUp => max 0 (top - page)
  | .pageDown => min (max 0 (total - page)) (top + page)
  | .jumpStart => 0
  | .jumpEnd => max 0 (total - page)

/-! ## Search (`run_search` in `_find-mails.py`) -/

/-- One record of the parsed `notmuch search --format=json` output, with the
fields `run_search` reads.  Missing optional fields are modelled by the
defaults the source substitutes (`"???"`, `[]`, `0`). -/
structure SearchItem where
  thread : String
  authors : String
  subject : String
  tags : List String
  timestamp : Int
deriving DecidableEq

/-- One result row built by `run_search` (lines 67-73). -/
structure ResultRow where
  id : String
  authors : String
  subject : String
  date_fmt : String
  timestamp : Int
deriving DecidableEq

/-- Row construction from one search item (lines 54-73).  `fmtDate` models
`format_date_strict`, which reads the wall clock and is therefore a
parameter. -/
def mkRow (fmtDate : Int → String) (it : SearchItem) : ResultRow :=
  { id := "thread:" ++ it.thread
    authors := it.authors
    subject :=
      if ¬ it.tags.isEmpty then
        it.subject ++ " " ++ ("(" ++ joinWith ", " it.tags ++ ")")
      else it.subject
    date_fmt := fmtDate it.timestamp
    timestamp := it.timestamp }

/-- The row-ordering logic of `run_search` (lines 49-80): rows are split into
`normal_results` and `future_results` (timestamp more than one day past
`now`), each built up in input order, and the future rows are appended after
the normal ones.  `now` models `datetime.now().timestamp()`. -/
def run_search_rows (fmtDate : Int → String) (now : Int) (items : List SearchItem) :
    List ResultRow :=
  let futureThreshold := now + 86400
  let acc := items.foldl
    (fun (acc : List ResultRow × List ResultRow) it =>
      let row := mkRow fmtDate it
      if it.timestamp > futureThreshold then (acc.1, acc.2 ++ [row])
      else (acc.1 ++ [row], acc.2))
    ([], [])
  acc.1 ++ acc.2

/-- `true` iff adjacent rows are in newest-first (non-increasing timestamp)
order. -/
def rowsSortedNewestFirst : List ResultRow → Bool
  | r1 :: r2 :: rs => r2.timestamp ≤ r1.timestamp && rowsSortedNewestFirst (r2 :: rs)
  | _ => true

/-- `true` iff adjacent search items are in newest-first order (what
`notmuch search --sort=newest-first` returns). -/
def itemsSortedNewestFirst : List SearchItem → Bool
  | i1 :: i2 :: is' => i2.timestamp ≤ i1.timestamp && itemsSortedNewestFirst (i2 :: is')
  | _ => true

/-! ## Search-session state (`main` in `_find-mails.py`) -/

/-- The mutable state of the search loop.  `rowsV` is the Python variable
`results`: being dynamically typed it holds either the row list or, after a
failed `run_search`, the error string (`Sum.inl`). -/
structure FindState where
  rowsV : String ⊕ List ResultRow
  selected : Int
  scroll : Int
  limit : Int
  fullyLoaded : Bool
deriving DecidableEq

/-- What the program shows right after the initial query (`_find-mails.py`
lines 188-194): a failure string becomes a full-screen message that waits for
a key (`stdscr.getch()`) and then leaves; a row list enters the list view. -/
inductive InitView : Type where
  | errorScreenThenExit (msg : String) : InitView
  | listView (rows : List ResultRow) : InitView
deriving DecidableEq

/-- The initial-query dispatch (`_find-mails.py` lines 188-198). -/
def initialDispatch (res : String ⊕ List ResultRow) : InitView :=
  match res with
  | .inl e => .errorScreenThenExit e
  | .inr rows => .listView rows

/-- The interactive-search branch of the key loop (`_find-mails.py` lines
222-233), entered when a non-empty query is typed at the `/` prompt:
`current_limit = max_y + 10`, `fully_loaded = False`, `results =
run_search(...)`, and only if the result is a list are selection, scroll and
`fully_loaded` reset.  `res` is the `run_search` outcome, `screenH` is
`max_y`. -/
def promptQueryStep (res : String ⊕ List ResultRow) (screenH : Int) (s : FindState) :
    FindState :=
  let limit' := screenH + 10
  match res with
  | .inr rows =>
    { rowsV := .inr rows
      selected := 0
      scroll := 0
      limit := limit'
      fullyLoaded := decide ((rows.length : Int) < limit') }
  | .inl e =>
    { s with rowsV := .inl e, limit := limit', fullyLoaded := false }

/-- The list page height, `list_height = max_y - 2`
(`_find-mails.py` line 202). -/
def listPageHeight (screenH : Int) : Int :=
  screenH - 2

/-- The infinite-scroll fetch phase at the top of the loop (`_find-mails.py`
lines 205-214).  `search` models `run_search` at a given limit, `screenH` is
`max_y`.  Input is the relevant state `(rows, selected, limit, fullyLoaded)`;
output is the new `(rows, limit, fullyLoaded)` plus a flag saying whether a
re-query was issued. -/
def fetchLoadStep (screenH : Int) (search : Int → String ⊕ List ResultRow)
    (rows : List ResultRow) (selected limit : Int) (fullyLoaded : Bool) :
    (List ResultRow × Int × Bool) × Bool :=
  if ¬ fullyLoaded ∧ selected ≥ (rows.length : Int) - 5 then
    let limit' := limit + screenH
    match search limit' with
    | .inr newRows =>
      ((newRows, limit', fullyLoaded || decide ((newRows.length : Int) < limit')), true)
    | .inl _ => ((rows, limit', fullyLoaded), true)
  else ((rows, limit, fullyLoaded), false)

/-! ## Attachment saving (`render_message` in `_view-mails.py`, `s` key) -/

/-- Models Python `os.path.basename` for POSIX paths on a character list:
everything after the last `/`. -/
def pyBasenameChars (l : List Char) : List Char :=
  l.foldl (fun acc c => if c = '/' then [] else acc ++ [c]) []

/-- Models Python `os.path.basename` for POSIX paths. -/
def pyBasename (s : String) : String :=
  String.mk (pyBasenameChars s.toList)

/-- Decimal digit character (codes 48-57). -/
def decDigitChar (n : Nat) : Char :=
  Char.ofNat (48 + n)

/-- Decimal digits of `n`, most significant first; `fuel ≥ 1` bounds the
recursion depth and `n + 1` always suffices. -/
def natDigitsAux : Nat → Nat → List Char
  | 0, _ => []
  | fuel + 1, n =>
    if n < 10 then [decDigitChar n]
    else natDigitsAux fuel (n / 10) ++ [decDigitChar (n % 10)]

/-- Models Python `str(n)` for a non-negative int. -/
def pyNatStr (n : Nat) : String :=
  String.mk (natDigitsAux (n + 1) n)

/-- Models Python `str(x)` for the optional part id as interpolated by
`f"att_{att['id']}"`: `None` prints as `"None"`. -/
def pyOptStr : Option Nat → String
  | none => "None"
  | some n => pyNatStr n

/-- The saved file name for one attachment (`_view-mails.py` line 256):
`fname = os.path.basename(att["filename"]) or f"att_{att['id']}"`. -/
def attSaveName (filename : String) (pid : Option Nat) : String :=
  let b := pyBasename filename
  if b = "" then "att_" ++ pyOptStr pid else b

/-! ## Theorems -/

theorem scrollAdjust_establishes (total h : Int) (ht : 0 < total) (hh : 1 ≤ h)
    (s : Int × Int) : ListInv total h (scrollAdjust total h s) := by
  unfold scrollAdjust ListInv
  rw [if_pos ht]
  simp only
  split_ifs <;> constructor <;> omega

theorem listStep_establishes (total h : Int) (ht : 0 < total) (hh : 1 ≤ h)
    (s : Int × Int) (c : ListCmd) : ListInv total h (listStep total h s c) :=
  scrollAdjust_establishes total h ht hh _

theorem foldl_listStep_inv (total h : Int) (ht : 0 < total) (hh : 1 ≤ h) :
    ∀ (cmds : List ListCmd) (s : Int × Int), ListInv total h s →
      ListInv total h (cmds.foldl (listStep total h) s) := by
  intro cmds
  induction cmds with
  | nil => intro s hs; exact hs
  | cons c cs ih =>
    intro s _
    exact ih (listStep total h s c) (listStep_establishes total h ht hh s c)

/-- C1: for the result-list controller with a fixed non-empty row list, after
any sequence of the six navigation keys (each followed by the
scroll-adjustment step) starting from the initial state
`(selected, scroll) = (0, 0)`, the state satisfies
`0 ≤ selected < total` and `scroll ≤ selected ≤ scroll + pageHeight - 1`;
and `MoveDown` at `selected = total - 1` leaves the selection unchanged. -/
theorem c1_list_invariant (total h : Int) (ht : 0 < total) (hh : 1 ≤ h) :
    (∀ cmds : List ListCmd, ListInv total h (cmds.foldl (listStep total h) (0, 0))) ∧
    (∀ sel sc : Int, sel = total - 1 →
      (listStep total h (sel, sc) ListCmd.moveDown).1 = sel) := by
  constructor
  · intro cmds
    apply foldl_listStep_inv total h ht hh
    simp only [ListInv]
    omega
  · intro sel sc hsel
    subst hsel
    simp only [listStep, listTrans, scrollAdjust, lt_irrefl, if_false]
    split_ifs <;> omega

/-- Witness for `c1_list_invariant` at `total = 3`, `h = 2`. -/
theorem c1_list_invariant_witness :
    ListInv 3 2 ([ListCmd.moveDown, ListCmd.pageDown, ListCmd.jumpEnd,
      ListCmd.moveUp].foldl (listStep 3 2) (0, 0)) ∧
    (listStep 3 2 (2, 1) ListCmd.moveDown).1 = 2 :=
  ⟨(c1_list_invariant 3 2 (by decide) (by decide)).1 _,
   (c1_list_invariant 3 2 (by decide) (by decide)).2 2 1 (by decide)⟩

/-- C2: every pager transition preserves
`0 ≤ top ≤ max 0 (total - page)` (for a non-negative page height); with 100
lines and page height 20, `JumpEnd` sets `top = 80` and a subsequent
`LineDown` leaves `top` unchanged. -/
theorem c2_pager_top_invariant (total page : Int) (hpage : 0 ≤ page) :
    (∀ (top : Int) (c : PagerCmd), 0 ≤ top → top ≤ max 0 (total - page) →
      0 ≤ pagerStep total page top c ∧
        pagerStep total page top c ≤ max 0 (total - page)) ∧
    pagerStep 100 20 0 PagerCmd.jumpEnd = 80 ∧
    pagerStep 100 20 80 PagerCmd.lineDown = 80 := by
  refine ⟨?_, by decide, by decide⟩
  intro top c h0 h1
  cases c <;> simp only [pagerStep] <;> constructor <;> omega

/-- Witness for `c2_pager_top_invariant` at `total = 100`, `page = 20`,
`top = 75`, `PageDown`. -/
theorem c2_pager_top_invariant_witness :
    0 ≤ pagerStep 100 20 75 PagerCmd.pageDown ∧
      pagerStep 100 20 75 PagerCmd.pageDown ≤ max 0 (100 - 20) :=
  (c2_pager_top_invariant 100 20 (by decide)).1 75 PagerCmd.pageDown
    (by decide) (by decide)

theorem vsqueeze_head_not_blank (ls : List String) :
    ∀ n, 1 ≤ n → headNotBlank (vsqueeze n ls) = true := by
  induction ls with
  | nil => intro n _; rfl
  | cons l ls ih =>
    intro n hn
    unfold vsqueeze
    split_ifs with h1 h2
    · exact absurd h2 (by omega)
    · exact ih (n + 1) (by omega)
    · simp [headNotBlank, h1]

theorem noConsecBlank_cons_of_head (x : String) (rest : List String)
    (hh : headNotBlank rest = true) (hr : noConsecBlank rest = true) :
    noConsecBlank (x :: rest) = true := by
  cases rest with
  | nil => rfl
  | cons b t =>
    simp only [headNotBlank, Bool.not_eq_true'] at hh
    simp only [noConsecBlank, hr, Bool.and_true, Bool.not_eq_true']
    simp [hh]

theorem noConsecBlank_cons_nonblank (l : String) (rest : List String)
    (hl : l ≠ "") (hr : noConsecBlank rest = true) :
    noConsecBlank (l :: rest) = true := by
  cases rest with
  | nil => rfl
  | cons b t =>
    simp only [noConsecBlank, hr, Bool.and_true, Bool.not_eq_true']
    have hb : (l == "") = false := beq_eq_false_iff_ne.mpr hl
    simp [hb]

theorem vsqueeze_noConsecBlank (ls : List String) :
    ∀ n, noConsecBlank (vsqueeze n ls) = true := by
  induction ls with
  | nil => intro n; rfl
  | cons l ls ih =>
    intro n
    unfold vsqueeze
    split_ifs with h1 h2
    · exact noConsecBlank_cons_of_head "" _
        (vsqueeze_head_not_blank ls (n + 1) (by omega)) (ih (n + 1))
    · exact ih (n + 1)
    · exact noConsecBlank_cons_nonblank l _ h1 (ih 0)

theorem dropWhile_head_false {α : Type} (p : α → Bool) (l : List α) :
    ∀ a as, l.dropWhile p = a :: as → p a = false := by
  induction l with
  | nil => intro a as h; simp [List.dropWhile] at h
  | cons x xs ih =>
    intro a as h
    simp only [List.dropWhile] at h
    by_cases hx : p x
    · rw [hx] at h
      exact ih a as h
    · rw [Bool.not_eq_true] at hx
      rw [hx] at h
      simp only at h
      cases h
      exact hx

theorem vsqueeze_dropWhile_head (xs : List String) :
    headNotBlank (vsqueeze 0 (xs.dropWhile (fun l => l == ""))) = true := by
  cases hd : xs.dropWhile (fun l => l == "") with
  | nil => rfl
  | cons a as =>
    have ha := dropWhile_head_false _ xs a as hd
    simp only at ha
    have ha' : a ≠ "" := beq_eq_false_iff_ne.mp ha
    unfold vsqueeze
    rw [if_neg ha']
    simp [headNotBlank, ha]

/-- C6: for every input and width, `reflow_text` returns no two consecutive
blank lines, and a non-empty result starts with a non-blank line (leading
blank raw lines are dropped, interior blank runs are squeezed to one). -/
theorem c6_reflow_vertical_whitespace (t : String) (w : Nat) :
    noConsecBlank (reflow_text t w) = true ∧ headNotBlank (reflow_text t w) = true :=
  ⟨vsqueeze_noConsecBlank _ 0, vsqueeze_dropWhile_head _⟩

theorem foldl_basename_no_slash (l : List Char) :
    ∀ acc : List Char, ('/' ∈ acc → False) →
      '/' ∈ l.foldl (fun acc c => if c = '/' then [] else acc ++ [c]) acc → False := by
  induction l with
  | nil => intro acc h; exact h
  | cons c cs ih =>
    intro acc h
    simp only [List.foldl]
    split_ifs with hc
    · exact ih [] (by simp)
    · refine ih (acc ++ [c]) ?_
      intro hmem
      rcases List.mem_append.mp hmem with h1 | h2
      · exact h h1
      · simp only [List.mem_singleton] at h2
        exact hc h2.symm

theorem pyBasename_no_slash (s : String) :
    '/' ∈ (pyBasename s).toList → False := by
  unfold pyBasename pyBasenameChars
  intro hmem
  exact foldl_basename_no_slash s.toList [] (by simp) hmem

theorem natDigitsAux_no_slash (fuel : Nat) :
    ∀ n, (natDigitsAux fuel n).all (fun c => !(c == '/')) = true := by
  induction fuel with
  | zero => intro n; rfl
  | succ fuel ih =>
    intro n
    unfold natDigitsAux
    split_ifs with h
    · interval_cases n <;> decide
    · rw [List.all_append]
      rw [ih (n / 10)]
      have hm : n % 10 < 10 := Nat.mod_lt n (by decide)
      simp only [Bool.true_and, List.all_cons, List.all_nil, Bool.and_true]
      interval_cases hmn : n % 10 <;> decide

theorem string_append_data (s t : String) : (s ++ t).data = s.data ++ t.data := rfl

/-- C10: the file name used by the pager's save action is the basename of the
attachment's declared filename, with fallback `att_<partId>` when that
basename is empty; the resulting name is never empty and never contains a
path separator, so the write stays in the current working directory. -/
theorem c10_attachment_save_name (fn : String) (pid : Option Nat) :
    (attSaveName fn pid).toList.all (fun c => !(c == '/')) = true ∧
    ((attSaveName fn pid == "") = false) ∧
    attSaveName "../../x" pid = "x" := by
  refine ⟨?_, ?_, ?_⟩
  · show ((if pyBasename fn = "" then "att_" ++ pyOptStr pid
        else pyBasename fn).toList.all (fun c => !(c == '/'))) = true
    split_ifs with hb
    · rw [show ("att_" ++ pyOptStr pid).toList = "att_".data ++ (pyOptStr pid).data from
        string_append_data _ _]
      rw [List.all_append]
      have h1 : "att_".data.all (fun c => !(c == '/')) = true := by decide
      have h2 : (pyOptStr pid).data.all (fun c => !(c == '/')) = true := by
        cases pid with
        | none => decide
        | some n => exact natDigitsAux_no_slash (n + 1) n
      rw [h1, h2]
      rfl
    · rw [List.all_eq_true]
      intro x hx
      by_cases hxs : x = '/'
      · subst hxs
        exact absurd hx (fun hmem => pyBasename_no_slash fn hmem)
      · simp [hxs]
  · show ((if pyBasename fn = "" then "att_" ++ pyOptStr pid
        else pyBasename fn) == "") = false
    split_ifs with hb
    · rw [beq_eq_false_iff_ne]
      intro hcontra
      have h2 := congrArg String.data hcontra
      rw [string_append_data] at h2
      simp at h2
    · exact beq_eq_false_iff_ne.mpr hb
  · show (if pyBasename "../../x" = "" then "att_" ++ pyOptStr pid
        else pyBasename "../../x") = "x"
    have hb : pyBasename "../../x" = "x" := by decide
    rw [hb]
    rw [if_neg (by decide)]

/-- C8 (evidence of the code bug at the interactive search prompt,
`_find-mails.py` lines 229-233): when the re-query at the `/` prompt fails,
`results` is rebound to the error string — the list state holds a non-list
value and no acknowledged full-screen error is shown — while the
initial-query path (lines 190-194) does surface the same failure as an
error screen. -/
theorem c8_prompt_failure_keeps_error_in_list_state :
    (promptQueryStep (.inl "notmuch failed") 24
      { rowsV := .inr [], selected := 3, scroll := 1, limit := 34,
        fullyLoaded := true }).rowsV = .inl "notmuch failed" ∧
    initialDispatch (.inl "notmuch failed") =
      .errorScreenThenExit "notmuch failed" := by
  exact ⟨rfl, rfl⟩

/-- A fixed date formatter for concrete evaluation (what
`format_date_strict` returns is irrelevant to ordering). -/
def c7FmtDate : Int → String := fun _ => ""

/-- Two search items, newest first, the first more than one day in the
future of `now = 0`. -/
def c7Items : List SearchItem :=
  [ { thread := "t1", authors := "a1", subject := "s1", tags := [], timestamp := 200000 },
    { thread := "t2", authors := "a2", subject := "s2", tags := [], timestamp := 100 } ]

/-- C7 counterexample: `run_search` does not return its rows newest-first —
a row more than one day in the future is moved behind older rows, so the
output of a newest-first query input is not newest-first. -/
theorem c7_counterexample :
    itemsSortedNewestFirst c7Items = true ∧
    rowsSortedNewestFirst (run_search_rows c7FmtDate 0 c7Items) = false := by
  constructor <;> decide

theorem run_search_foldl_partition (fmtDate : Int → String) (thr : Int) :
    ∀ (items : List SearchItem) (accN accF : List ResultRow),
      items.foldl
        (fun (acc : List ResultRow × List ResultRow) it =>
          let row := mkRow fmtDate it
          if it.timestamp > thr then (acc.1, acc.2 ++ [row])
          else (acc.1 ++ [row], acc.2))
        (accN, accF)
      = (accN ++ (items.filter (fun it => decide (it.timestamp ≤ thr))).map (mkRow fmtDate),
         accF ++ (items.filter (fun it => decide (thr < it.timestamp))).map (mkRow fmtDate)) := by
  intro items
  induction items with
  | nil => intro accN accF; simp
  | cons it items ih =>
    intro accN accF
    simp only [List.foldl_cons, List.filter_cons]
    by_cases h : it.timestamp > thr
    · rw [if_pos h]
      rw [ih accN (accF ++ [mkRow fmtDate it])]
      rw [decide_eq_false (by omega : ¬ (it.timestamp ≤ thr)), decide_eq_true h]
      simp
    · rw [if_neg h]
      rw [ih (accN ++ [mkRow fmtDate it]) accF]
      rw [decide_eq_true (by omega : it.timestamp ≤ thr), decide_eq_false h]
      simp

theorem itemsSortedNF_iff_chain (l : List SearchItem) :
    itemsSortedNewestFirst l = true ↔
      List.Chain' (fun a b => b.timestamp ≤ a.timestamp) l := by
  induction l with
  | nil => simp [itemsSortedNewestFirst]
  | cons a l ih =>
    cases l with
    | nil => simp [itemsSortedNewestFirst]
    | cons b t =>
      rw [List.chain'_cons]
      simp only [itemsSortedNewestFirst, Bool.and_eq_true, decide_eq_true_eq]
      rw [ih]

theorem rowsSortedNF_iff_chain (l : List ResultRow) :
    rowsSortedNewestFirst l = true ↔
      List.Chain' (fun a b => b.timestamp ≤ a.timestamp) l := by
  induction l with
  | nil => simp [rowsSortedNewestFirst]
  | cons a l ih =>
    cases l with
    | nil => simp [rowsSortedNewestFirst]
    | cons b t =>
      rw [List.chain'_cons]
      simp only [rowsSortedNewestFirst, Bool.and_eq_true, decide_eq_true_eq]
      rw [ih]

theorem sorted_filter_map_rows (fmtDate : Int → String) (p : SearchItem → Bool)
    (items : List SearchItem) (h : itemsSortedNewestFirst items = true) :
    rowsSortedNewestFirst ((items.filter p).map (mkRow fmtDate)) = true := by
  rw [rowsSortedNF_iff_chain]
  rw [itemsSortedNF_iff_chain] at h
  haveI : IsTrans SearchItem (fun a b => b.timestamp ≤ a.timestamp) :=
    ⟨fun _ _ _ h1 h2 => le_trans h2 h1⟩
  haveI : IsTrans ResultRow (fun a b => b.timestamp ≤ a.timestamp) :=
    ⟨fun _ _ _ h1 h2 => le_trans h2 h1⟩
  have hp : (items.filter p).Pairwise (fun a b => b.timestamp ≤ a.timestamp) :=
    (List.chain'_iff_pairwise.mp h).filter p
  have hm : ((items.filter p).map (mkRow fmtDate)).Pairwise
      (fun a b : ResultRow => b.timestamp ≤ a.timestamp) := by
    rw [List.pairwise_map]
    exact hp
  exact List.chain'_iff_pairwise.mpr hm

/-- C7 (amended): `run_search` returns the query output split in two blocks —
rows no more than one day in the future of `now` first, then the far-future
rows — each block in the query's newest-first order; and the list state holds
exactly the returned sequence. -/
theorem c7_search_order (fmtDate : Int → String) (now : Int)
    (items : List SearchItem) :
    (run_search_rows fmtDate now items =
      (items.filter (fun it => decide (it.timestamp ≤ now + 86400))).map (mkRow fmtDate) ++
      (items.filter (fun it => decide (now + 86400 < it.timestamp))).map (mkRow fmtDate)) ∧
    (itemsSortedNewestFirst items = true →
      rowsSortedNewestFirst
        ((items.filter (fun it => decide (it.timestamp ≤ now + 86400))).map (mkRow fmtDate)) = true ∧
      rowsSortedNewestFirst
        ((items.filter (fun it => decide (now + 86400 < it.timestamp))).map (mkRow fmtDate)) = true) ∧
    (∀ (rows : List ResultRow) (screenH : Int) (s : FindState),
      (promptQueryStep (.inr rows) screenH s).rowsV = .inr rows) := by
  refine ⟨?_, ?_, ?_⟩
  · show (let acc := List.foldl _ ([], []) items; acc.1 ++ acc.2) = _
    rw [run_search_foldl_partition fmtDate (now + 86400) items [] []]
    simp
  · intro h
    exact ⟨sorted_filter_map_rows fmtDate _ items h,
           sorted_filter_map_rows fmtDate _ items h⟩
  · intro rows screenH s
    rfl

/-- Witness for `c7_search_order` on a concrete newest-first item list. -/
theorem c7_search_order_witness :
    itemsSortedNewestFirst c7Items = true ∧
    rowsSortedNewestFirst
      ((c7Items.filter (fun it => decide (it.timestamp ≤ 0 + 86400))).map (mkRow c7FmtDate)) = true :=
  ⟨by decide, ((c7_search_order c7FmtDate 0 c7Items).2.1 (by decide)).1⟩

/-- A concrete always-succeeding search returning no rows, for evaluation. -/
def c9Search : Int → String ⊕ List ResultRow := fun _ => .inr []

/-- C9 counterexample: with screen height 10 (list page height 8) and a state
that triggers the fetch (`fullyLoaded = false`, `selected ≥ len - 5`), the
re-query limit grows from 10 to 20 — by the screen height, not by one list
page height as claimed (10 + listPageHeight 10 = 18 ≠ 20). -/
theorem c9_counterexample :
    (fetchLoadStep 10 c9Search [] 0 10 false).1.2.1 = 20 ∧
    (fetchLoadStep 10 c9Search [] 0 10 false).2 = true ∧
    listPageHeight 10 = 8 ∧
    decide ((fetchLoadStep 10 c9Search [] 0 10 false).1.2.1 = 10 + listPageHeight 10) = false := by
  refine ⟨by decide, by decide, by decide, by decide⟩

/-- C9 (amended): when `fullyLoaded` is false and `selected ≥ len(rows) - 5`,
a re-query is issued with the load limit increased by exactly the screen
height (= list page height + 2); on success `rows` is replaced by the new
result set and `fullyLoaded` becomes `len(newRows) < newLimit`; no fetch is
issued (state unchanged) when `fullyLoaded` is true or
`selected < len(rows) - 5`. -/
theorem c9_fetch_more (screenH : Int) (search : Int → String ⊕ List ResultRow)
    (rows : List ResultRow) (selected limit : Int) (fullyLoaded : Bool) :
    (fullyLoaded = false → selected ≥ (rows.length : Int) - 5 →
      (fetchLoadStep screenH search rows selected limit fullyLoaded).2 = true ∧
      (fetchLoadStep screenH search rows selected limit fullyLoaded).1.2.1 = limit + screenH ∧
      limit + screenH = limit + (listPageHeight screenH + 2) ∧
      (∀ newRows, search (limit + screenH) = .inr newRows →
        (fetchLoadStep screenH search rows selected limit fullyLoaded).1.1 = newRows ∧
        (fetchLoadStep screenH search rows selected limit fullyLoaded).1.2.2 =
          decide ((newRows.length : Int) < limit + screenH))) ∧
    (fullyLoaded = true ∨ selected < (rows.length : Int) - 5 →
      fetchLoadStep screenH search rows selected limit fullyLoaded =
        ((rows, limit, fullyLoaded), false)) := by
  constructor
  · intro hfl hsel
    subst hfl
    have hcond : ¬ (false : Bool) ∧ selected ≥ (rows.length : Int) - 5 := by
      simp [hsel]
    unfold fetchLoadStep
    rw [if_pos hcond]
    dsimp only
    cases hs : search (limit + screenH) with
    | inl e =>
      refine ⟨rfl, rfl, by unfold listPageHeight; ring, ?_⟩
      intro newRows hnew
      cases hnew
    | inr newRows =>
      refine ⟨rfl, rfl, by unfold listPageHeight; ring, ?_⟩
      intro newRows' hnew
      cases hnew
      exact ⟨rfl, by simp⟩
  · intro hoff
    have hcond : ¬ (¬ fullyLoaded ∧ selected ≥ (rows.length : Int) - 5) := by
      rcases hoff with h1 | h2
      · subst h1; simp
      · intro hc; omega
    unfold fetchLoadStep
    rw [if_neg hcond]

/-- Witness for `c9_fetch_more`: concrete fetch-triggering state. -/
theorem c9_fetch_more_witness :
    (fetchLoadStep 10 c9Search [] 0 10 false).2 = true ∧
    (fetchLoadStep 10 c9Search [] 0 10 false).1.1 = [] ∧
    fetchLoadStep 10 c9Search [] 3 10 true = (([], 10, true), false) :=
  ⟨((c9_fetch_more 10 c9Search [] 0 10 false).1 rfl (by decide)).1,
   (((c9_fetch_more 10 c9Search [] 0 10 false).1 rfl (by decide)).2.2.2 [] rfl).1,
   (c9_fetch_more 10 c9Search [] 3 10 true).2 (Or.inl rfl)⟩


/-- A part fetcher returning empty content (all example parts are inline). -/
def c3Fetch : Nat → String := fun _ => ""

/-- The spec's example tree: one `text/plain` leaf `"X"` and one `text/html`
leaf `"<b>Y</b>"`. -/
def c3ExampleParts : MimeList :=
  .cons (.mk "text/plain" none none none (.cstr "X"))
    (.cons (.mk "text/html" none none none (.cstr "<b>Y</b>")) .nil)

/-- C3: the body-selection policy of `collect_body_and_attachments` — if any
HTML buffer entry was collected the body is the Markup Reducer applied to the
HTML entries joined by newlines; otherwise the joined plain entries if any;
otherwise the literal placeholder.  On the spec's example tree the body is
exactly `"Y"` (derived from the HTML leaf, not from `"X"`). -/
theorem c3_html_preferred_selection (fetch : Nat → String) (parts : MimeList) :
    ((walkL fetch parts).2.1 ≠ [] →
      (collect_body_and_attachments fetch parts).1 =
        clean_html_to_text (joinWith "\n" (walkL fetch parts).2.1)) ∧
    ((walkL fetch parts).2.1 = [] → (walkL fetch parts).1 ≠ [] →
      (collect_body_and_attachments fetch parts).1 =
        joinWith "\n" (walkL fetch parts).1) ∧
    ((walkL fetch parts).2.1 = [] → (walkL fetch parts).1 = [] →
      (collect_body_and_attachments fetch parts).1 =
        "[No readable text content found]") ∧
    (collect_body_and_attachments c3Fetch c3ExampleParts).1 = "Y" := by
  refine ⟨?_, ?_, ?_, by decide⟩
  · intro h
    unfold collect_body_and_attachments
    dsimp only
    rw [if_pos (fun hc => h (List.isEmpty_iff.mp hc))]
  · intro hh hp
    unfold collect_body_and_attachments
    dsimp only
    rw [if_neg (fun hc => hc (List.isEmpty_iff.mpr hh))]
    rw [if_pos (fun hc => hp (List.isEmpty_iff.mp hc))]
  · intro hh hp
    unfold collect_body_and_attachments
    dsimp only
    rw [if_neg (fun hc => hc (List.isEmpty_iff.mpr hh))]
    rw [if_neg (fun hc => hc (List.isEmpty_iff.mpr hp))]

/-- Witness for `c3_html_preferred_selection` on the example tree: the HTML
buffer is non-empty and the body is the reduced joined HTML buffer. -/
theorem c3_html_preferred_selection_witness :
    (collect_body_and_attachments c3Fetch c3ExampleParts).1 =
      clean_html_to_text (joinWith "\n" (walkL c3Fetch c3ExampleParts).2.1) :=
  (c3_html_preferred_selection c3Fetch c3ExampleParts).1 (by decide)

/-- The (defaulted) filename of a part, Python `part.get("filename") or ""`. -/
def partFilename : MimePart → String
  | .mk _ fname _ _ _ => fname.getD ""

/-- The disposition field of a part. -/
def partDisposition : MimePart → Option String
  | .mk _ _ _ dispo _ => dispo

mutual
/-- All nodes of a part's tree in document order. -/
def nodesP : MimePart → List MimePart
  | .mk ctype fname pid dispo content =>
    .mk ctype fname pid dispo content :: nodesC content
/-- All nodes below a content field. -/
def nodesC : MimeContent → List MimePart
  | .clist cs => nodesL cs
  | _ => []
/-- All nodes of a part list in document order. -/
def nodesL : MimeList → List MimePart
  | .nil => []
  | .cons p ps => nodesP p ++ nodesL ps
end

/-- A part fetcher returning empty content for C4's example trees. -/
def c4Fetch : Nat → String := fun _ => ""

/-- A nested part with a non-empty filename, inside an attachment. -/
def c4NestedChild : MimePart :=
  .mk "text/plain" (some "b.txt") (some 2) none (.cstr "SECRET")

/-- The spec's `a.pdf` attachment part, with a nested text child. -/
def c4AttachPart : MimePart :=
  .mk "application/pdf" (some "a.pdf") (some 1) (some "attachment")
    (.clist (.cons c4NestedChild .nil))

/-- A one-part tree containing `c4AttachPart`. -/
def c4ExampleParts : MimeList := .cons c4AttachPart .nil

/-- A part with disposition "attachment" but no filename and inline text. -/
def c4NoNamePart : MimePart :=
  .mk "text/plain" none none (some "attachment") (.cstr "LEAK")

/-- A one-part tree containing `c4NoNamePart`. -/
def c4Example2 : MimeList := .cons c4NoNamePart .nil

/-- C4 counterexample: the claim fails on the code in both halves.
(1) `c4NestedChild` is a node of the tree with non-empty filename `"b.txt"`,
yet the attachment list records it zero times (its parent has disposition
"attachment", so its subtree is never walked).  (2) `c4NoNamePart` has
disposition exactly "attachment" but no filename, and its payload `"LEAK"`
is content-walked into the body. -/
theorem c4_counterexample :
    nodesL c4ExampleParts = [c4AttachPart, c4NestedChild] ∧
    partFilename c4NestedChild = "b.txt" ∧
    (collect_body_and_attachments c4Fetch c4ExampleParts).2.countP
      (fun a => a.filename == "b.txt") = 0 ∧
    partDisposition c4NoNamePart = some "attachment" ∧
    (collect_body_and_attachments c4Fetch c4Example2).1 = "LEAK" :=
  ⟨rfl, rfl, by decide, rfl, by decide⟩

theorem walk_atts_eq_aux (fetch : Nat → String) :
    ∀ n : Nat,
      (∀ p : MimePart, sizeOf p ≤ n → (walkP fetch p).2.2 = attsSpecP p) ∧
      (∀ ps : MimeList, sizeOf ps ≤ n → (walkL fetch ps).2.2 = attsSpecL ps) := by
  intro n
  induction n with
  | zero =>
    constructor
    · intro p hp
      cases p with
      | mk ctype fname pid dispo content =>
        simp only [MimePart.mk.sizeOf_spec] at hp
        omega
    · intro ps hps
      cases ps with
      | nil => rfl
      | cons p ps' =>
        simp only [MimeList.cons.sizeOf_spec] at hps
        cases p with
        | mk ctype fname pid dispo content =>
          simp only [MimePart.mk.sizeOf_spec] at hps
          omega
  | succ n ih =>
    constructor
    · intro p hp
      cases p with
      | mk ctype fname pid dispo content =>
        cases content with
        | cstr s =>
          conv_lhs => simp only [walkP]
          conv_rhs => simp only [attsSpecP]
          by_cases hskip : (fname.getD "" ≠ "" ∧ dispo = some "attachment")
          · rcases hskip with ⟨h1, h2⟩
            subst h2
            simp [h1]
          · rw [if_neg hskip, if_neg hskip]
        | cnone =>
          conv_lhs => simp only [walkP]
          conv_rhs => simp only [attsSpecP]
          by_cases hskip : (fname.getD "" ≠ "" ∧ dispo = some "attachment")
          · rcases hskip with ⟨h1, h2⟩
            subst h2
            simp [h1]
          · rw [if_neg hskip, if_neg hskip]
        | clist cs =>
          have hcs : sizeOf cs ≤ n := by
            simp only [MimePart.mk.sizeOf_spec, MimeContent.clist.sizeOf_spec] at hp
            omega
          conv_lhs => simp only [walkP]
          conv_rhs => simp only [attsSpecP]
          by_cases hskip : (fname.getD "" ≠ "" ∧ dispo = some "attachment")
          · rcases hskip with ⟨h1, h2⟩
            subst h2
            simp [h1]
          · rw [if_neg hskip, if_neg hskip]
            dsimp only
            rw [ih.2 cs hcs]
    · intro ps hps
      cases ps with
      | nil => rfl
      | cons p ps' =>
        have hsz : sizeOf p ≤ n ∧ sizeOf ps' ≤ n := by
          simp only [MimeList.cons.sizeOf_spec] at hps
          cases p with
          | mk ctype fname pid dispo content =>
            simp only [MimePart.mk.sizeOf_spec] at hps ⊢
            constructor <;> omega
        simp only [walkL, attsSpecL]
        rw [ih.1 p hsz.1, ih.2 ps' hsz.2]

/-- C4 (amended): (1) `extract`'s attachment list is exactly the spec-side
manifest `attsSpecL` — every part the content-walk visits with a non-empty
filename, recorded once in document order as `{partId, filename,
contentType}`, where a part with non-empty filename and disposition exactly
"attachment" ends its subtree's walk; (2) the subtree below such an
attachment part is irrelevant to the whole extraction result (body and
attachments); (3) on the spec's example, `a.pdf` is recorded exactly once
and the nested subtree's content is absent from the body. -/
theorem c4_attachments_recorded (fetch : Nat → String) :
    (∀ parts : MimeList,
      (collect_body_and_attachments fetch parts).2 = attsSpecL parts) ∧
    (∀ (ctype fn : String) (pid : Option Nat) (cs cs' rest : MimeList),
      fn ≠ "" →
      collect_body_and_attachments fetch
        (.cons (.mk ctype (some fn) pid (some "attachment") (.clist cs)) rest) =
      collect_body_and_attachments fetch
        (.cons (.mk ctype (some fn) pid (some "attachment") (.clist cs')) rest)) ∧
    (collect_body_and_attachments c4Fetch c4ExampleParts).2 =
      [⟨some 1, "a.pdf", "application/pdf"⟩] ∧
    (collect_body_and_attachments c4Fetch c4ExampleParts).1 =
      "[No readable text content found]" := by
  refine ⟨?_, ?_, by decide, by decide⟩
  · intro parts
    have h := (walk_atts_eq_aux fetch (sizeOf parts)).2 parts le_rfl
    unfold collect_body_and_attachments
    dsimp only
    split_ifs <;> exact h
  · intro ctype fn pid cs cs' rest hfn
    have hw : walkP fetch (.mk ctype (some fn) pid (some "attachment") (.clist cs)) =
        walkP fetch (.mk ctype (some fn) pid (some "attachment") (.clist cs')) := by
      simp [walkP, hfn]
    unfold collect_body_and_attachments
    simp only [walkL]
    rw [hw]

/-- Witness for `c4_attachments_recorded`: replacing the `a.pdf` attachment
part's subtree by an empty one changes nothing. -/
theorem c4_attachments_recorded_witness :
    collect_body_and_attachments c4Fetch
      (.cons (.mk "application/pdf" (some "a.pdf") (some 1) (some "attachment")
        (.clist (.cons c4NestedChild .nil))) .nil) =
    collect_body_and_attachments c4Fetch
      (.cons (.mk "application/pdf" (some "a.pdf") (some 1) (some "attachment")
        (.clist .nil)) .nil) :=
  (c4_attachments_recorded c4Fetch).2.1 "application/pdf" "a.pdf" (some 1)
    (.cons c4NestedChild .nil) .nil .nil (by decide)

theorem fillLine_spec (width : Nat) :
    ∀ (cs : List (List Char)) (curLen : Nat), curLen ≤ width →
      (fillLine width curLen cs).2.2 =
        curLen + (((fillLine width curLen cs).1).map List.length).sum ∧
      (fillLine width curLen cs).2.2 ≤ width := by
  intro cs
  induction cs with
  | nil => intro curLen h; simp [fillLine, h]
  | cons c cs ih =>
    intro curLen h
    unfold fillLine
    split_ifs with hfit
    · have := ih (curLen + c.length) hfit
      dsimp only
      constructor
      · rw [this.1]
        simp only [List.map_cons, List.sum_cons]
        omega
      · exact this.2
    · simp [h]

theorem sum_map_length_dropLast_le (l : List (List Char)) :
    ((l.dropLast).map List.length).sum ≤ (l.map List.length).sum := by
  induction l with
  | nil => simp
  | cons x t ih =>
    cases t with
    | nil => simp
    | cons y t' =>
      rw [List.dropLast_cons₂]
      simp only [List.map_cons, List.sum_cons]
      have h := ih
      simp only [List.map_cons, List.sum_cons] at h
      omega

theorem dropTrailingWsChunk_sum_le (cur : List (List Char)) :
    (((dropTrailingWsChunk cur).map List.length).sum) ≤ ((cur.map List.length).sum) := by
  unfold dropTrailingWsChunk
  cases h : cur.getLast? with
  | none => exact le_refl _
  | some x =>
    dsimp only
    split_ifs with hws
    · exact sum_map_length_dropLast_le cur
    · exact le_refl _

theorem wrapIter_sum_le (width : Nat) (hw : 1 ≤ width) (chunks : List (List Char)) :
    (((wrapIter width chunks).1).map List.length).sum ≤ width := by
  unfold wrapIter
  dsimp only
  obtain ⟨hf1, hf2⟩ := fillLine_spec width chunks 0 (by omega)
  refine le_trans (dropTrailingWsChunk_sum_le _) ?_
  cases hrest : (fillLine width 0 chunks).2.1 with
  | nil =>
    unfold longWordAdjust
    dsimp only
    omega
  | cons c cs =>
    unfold longWordAdjust
    dsimp only
    split_ifs with hlong hw1
    · exact absurd hw1 (by omega)
    · dsimp only
      rw [List.map_append]
      simp only [List.map_cons, List.map_nil, List.sum_append, List.sum_cons, List.sum_nil]
      rw [List.length_take]
      have hmin := Nat.min_le_left (width - (fillLine width 0 chunks).2.2) c.length
      omega
    · dsimp only
      omega

theorem wrapLoop_mem_le (width : Nat) (hw : 1 ≤ width) :
    ∀ (fuel : Nat) (first : Bool) (chunks : List (List Char)) (l : List Char),
      l ∈ wrapLoop width fuel first chunks → l.length ≤ width := by
  intro fuel
  induction fuel with
  | zero => intro first chunks l hl; simp [wrapLoop] at hl
  | succ fuel ih =>
    intro first chunks l hl
    cases chunks with
    | nil => simp [wrapLoop] at hl
    | cons c0 cs0 =>
      rw [wrapLoop] at hl
      by_cases he : (wrapIter width
          (if first then c0 :: cs0
           else if c0.all isPyWs then cs0 else c0 :: cs0)).1.isEmpty
      · rw [if_pos he] at hl
        exact ih first _ l hl
      · rw [if_neg he] at hl
        rcases List.mem_cons.mp hl with rfl | hmem
        · rw [List.length_flatten]
          exact wrapIter_sum_le width hw _
        · exact ih false _ l hmem

theorem textwrapWrap_mem_le (s : String) (width : Nat) (hw : 1 ≤ width) :
    ∀ l ∈ textwrapWrap s width, l.length ≤ width := by
  intro l hl
  unfold textwrapWrap at hl
  rcases List.mem_map.mp hl with ⟨cl, hcl, rfl⟩
  show cl.length ≤ width
  exact wrapLoop_mem_le width hw _ true _ cl hcl

theorem vsqueeze_mem : ∀ (n : Nat) (ls : List String) (l : String),
    l ∈ vsqueeze n ls → l = "" ∨ l ∈ ls := by
  intro n ls
  induction ls generalizing n with
  | nil => intro l hl; simp [vsqueeze] at hl
  | cons x xs ih =>
    intro l hl
    unfold vsqueeze at hl
    split_ifs at hl with h1 h2
    · rcases List.mem_cons.mp hl with rfl | hmem
      · exact Or.inl rfl
      · rcases ih (n + 1) l hmem with h | h
        · exact Or.inl h
        · exact Or.inr (List.mem_cons_of_mem x h)
    · rcases ih (n + 1) l hl with h | h
      · exact Or.inl h
      · exact Or.inr (List.mem_cons_of_mem x h)
    · rcases List.mem_cons.mp hl with rfl | hmem
      · exact Or.inr (List.mem_cons_self _ _)
      · rcases ih 0 l hmem with h | h
        · exact Or.inl h
        · exact Or.inr (List.mem_cons_of_mem x h)

theorem dropWhile_mem {α : Type} (p : α → Bool) (l : List α) (x : α)
    (h : x ∈ l.dropWhile p) : x ∈ l := by
  induction l with
  | nil => simp [List.dropWhile] at h
  | cons a as ih =>
    simp only [List.dropWhile] at h
    by_cases ha : p a
    · rw [ha] at h
      exact List.mem_cons_of_mem a (ih h)
    · rw [Bool.not_eq_true] at ha
      rw [ha] at h
      exact h

/-- C5: for every width `w ≥ 1` and every input, every line returned by
`reflow_text` has length at most `w`; a token longer than `w` is hard-broken
(as on `"aaaaa"` at width 2). -/
theorem c5_reflow_width_bound (t : String) (w : Nat) (hw : 1 ≤ w) :
    (∀ l ∈ reflow_text t w, l.length ≤ w) ∧
    reflow_text "aaaaa" 2 = ["aa", "aa", "a"] := by
  refine ⟨?_, by decide⟩
  intro l hl
  unfold reflow_text at hl
  rcases vsqueeze_mem 0 _ l hl with rfl | hmem
  · show (String.mk []).length ≤ w
    simp [String.length]
  · have hmem2 := dropWhile_mem _ _ _ hmem
    rcases List.mem_flatMap.mp hmem2 with ⟨raw, _, hline⟩
    dsimp only at hline
    by_cases hc : pyStrip raw = ""
    · rw [if_pos hc] at hline
      rcases List.mem_singleton.mp hline with rfl
      show (String.mk []).length ≤ w
      simp [String.length]
    · rw [if_neg hc] at hline
      exact textwrapWrap_mem_le _ w hw l hline

/-- Witness for `c5_reflow_width_bound` at width 2 on `"aaaaa"`. -/
theorem c5_reflow_width_bound_witness :
    "aa".length ≤ 2 ∧ reflow_text "aaaaa" 2 = ["aa", "aa", "a"] :=
  ⟨(c5_reflow_width_bound "aaaaa" 2 (by decide)).1 "aa" (by decide),
   (c5_reflow_width_bound "aaaaa" 2 (by decide)).2⟩
